import Mathlib

/-!
Verification of the streaming conversational session of `goals_react`.

The development shallowly embeds, from the source:
  * the SSE byte-stream parser of `src/services/chat.ts` (`sendMessage`),
    including the streaming UTF-8 decoding step (`TextDecoder` with
    `stream: true`) and the line/event accumulation loop;
  * the event dispatcher `dispatchSSEEvent` (JSON payload decoding per the
    wire shapes of the spec, since `JSON.parse` is a platform builtin);
  * the conversation-window message handlers of `ChatWindow.tsx`
    (`handleSendMessage` with its `onToken`/`onToolCall`/`onToolResult`/
    `onDone`/`onError` callbacks);
  * the voice-capture controller of `ChatInput.tsx` (`startRecording`,
    `stopRecording`, `confirmRecording`, `cancelRecording`, the provider
    `onend`/`onresult`/`onerror` handlers and the unmount cleanup).

Text is modelled as `List Char`, bytes as `Nat` (values < 256 in use).
-/

namespace GoalsReact

/-! ## Streaming UTF-8 decoder

Modelled from the spec: the platform `TextDecoder('utf-8', { stream: true })`
used by `sendMessage` — a streaming-aware decoder that carries the partial
bytes of a multi-byte character forward to the next chunk.  Behavior on
ill-formed byte sequences is approximated with a single replacement
character per invalid sequence; the properties proved below only exercise
well-formed UTF-8 (encodings of actual strings). -/

/-- Number of bytes of the UTF-8 sequence introduced by lead byte `b`
(1 for ASCII and for invalid lead bytes, which are consumed singly). -/
def expectedLen (b : Nat) : Nat :=
  if b < 0x80 then 1
  else if b < 0xC0 then 1
  else if b < 0xE0 then 2
  else if b < 0xF0 then 3
  else if b < 0xF8 then 4
  else 1

/-- Is `b` a UTF-8 continuation byte? -/
def isCont (b : Nat) : Bool := decide (0x80 ≤ b ∧ b < 0xC0)

/-- The replacement character U+FFFD emitted for invalid sequences. -/
def replacementChar : Char := Char.ofNat 0xFFFD

/-- Decode one complete UTF-8 sequence (1–4 bytes). -/
def decodeSeq : List Nat → Char
  | [b] => if b < 0x80 then Char.ofNat b else replacementChar
  | [b0, b1] =>
      if isCont b1 then Char.ofNat ((b0 - 0xC0) * 64 + (b1 - 0x80))
      else replacementChar
  | [b0, b1, b2] =>
      if isCont b1 && isCont b2 then
        Char.ofNat ((b0 - 0xE0) * 4096 + (b1 - 0x80) * 64 + (b2 - 0x80))
      else replacementChar
  | [b0, b1, b2, b3] =>
      if isCont b1 && isCont b2 && isCont b3 then
        Char.ofNat ((b0 - 0xF0) * 262144 + (b1 - 0x80) * 4096 +
          (b2 - 0x80) * 64 + (b3 - 0x80))
      else replacementChar
  | _ => replacementChar

/-- Feed one byte to the streaming decoder.  `pending` holds the bytes of a
not-yet-complete multi-byte character carried over from earlier chunks. -/
def decByte (pending : List Nat) (b : Nat) : List Nat × List Char :=
  let buf := pending ++ [b]
  if buf.length < expectedLen (buf.headD 0) then (buf, [])
  else ([], [decodeSeq buf])

/-- Feed a chunk of bytes to the streaming decoder, returning the new
pending state and the decoded text. -/
def feedDecoder : List Nat → List Nat → List Nat × List Char
  | st, [] => (st, [])
  | st, b :: bs =>
    let s := decByte st b
    let r := feedDecoder s.1 bs
    (r.1, s.2 ++ r.2)

/-- UTF-8 encoding of one character. -/
def encodeChar (c : Char) : List Nat :=
  let n := c.toNat
  if n < 0x80 then [n]
  else if n < 0x800 then [0xC0 + n / 64, 0x80 + n % 64]
  else if n < 0x10000 then
    [0xE0 + n / 4096, 0x80 + n / 64 % 64, 0x80 + n % 64]
  else
    [0xF0 + n / 262144, 0x80 + n / 4096 % 64, 0x80 + n / 64 % 64,
     0x80 + n % 64]

/-- UTF-8 encoding of a text. -/
def utf8Encode (s : List Char) : List Nat := s.flatMap encodeChar

theorem feedDecoder_append (a b : List Nat) (st : List Nat) :
    feedDecoder st (a ++ b) =
      ((feedDecoder (feedDecoder st a).1 b).1,
        (feedDecoder st a).2 ++ (feedDecoder (feedDecoder st a).1 b).2) := by
  induction a generalizing st with
  | nil => simp [feedDecoder]
  | cons x xs ih =>
      simp only [List.cons_append, feedDecoder, List.append_eq]
      rw [ih]
      simp [List.append_assoc]

theorem char_toNat_lt (c : Char) : c.toNat < 1114112 := by
  have h : c.toNat = c.val.toNat := rfl
  have := c.valid
  rcases this with h' | h' <;> omega

theorem decByte_hold (st : List Nat) (b : Nat)
    (h : (st ++ [b]).length < expectedLen ((st ++ [b]).headD 0)) :
    decByte st b = (st ++ [b], []) := by
  show (if (st ++ [b]).length < expectedLen ((st ++ [b]).headD 0)
      then (st ++ [b], ([] : List Char))
      else ([], [decodeSeq (st ++ [b])])) = _
  rw [if_pos h]

theorem decByte_emit (st : List Nat) (b : Nat)
    (h : ¬ (st ++ [b]).length < expectedLen ((st ++ [b]).headD 0)) :
    decByte st b = ([], [decodeSeq (st ++ [b])]) := by
  show (if (st ++ [b]).length < expectedLen ((st ++ [b]).headD 0)
      then (st ++ [b], ([] : List Char))
      else ([], [decodeSeq (st ++ [b])])) = _
  rw [if_neg h]

theorem charOfNat_eq (c : Char) (n : Nat) (h : n = c.toNat) :
    Char.ofNat n = c := by
  rw [h, Char.ofNat_toNat]

/-- Decoding the encoding of one character from a clean state yields exactly
that character. -/
theorem feedDecoder_encodeChar (c : Char) :
    feedDecoder [] (encodeChar c) = ([], [c]) := by
  have hlt : c.toNat < 1114112 := char_toNat_lt c
  by_cases h1 : c.toNat < 0x80
  · have hb : encodeChar c = [c.toNat] := by simp [encodeChar, h1]
    have e1 : expectedLen c.toNat = 1 := by simp [expectedLen, h1]
    have s1 : decByte [] c.toNat = ([], [decodeSeq [c.toNat]]) := by
      apply decByte_emit
      simp [e1]
    have hdec : decodeSeq [c.toNat] = c := by
      simp [decodeSeq, h1, Char.ofNat_toNat]
    rw [hb]
    simp [feedDecoder, s1, hdec]
  · by_cases h2 : c.toNat < 0x800
    · have hb : encodeChar c = [0xC0 + c.toNat / 64, 0x80 + c.toNat % 64] := by
        simp [encodeChar, h1, h2]
      have e1 : expectedLen (0xC0 + c.toNat / 64) = 2 := by
        have ha : ¬ (0xC0 + c.toNat / 64 < 0x80) := by omega
        have hb' : ¬ (0xC0 + c.toNat / 64 < 0xC0) := by omega
        have hc' : 0xC0 + c.toNat / 64 < 0xE0 := by omega
        simp [expectedLen, ha, hb', hc']
      have hc : isCont (0x80 + c.toNat % 64) = true := by
        simp only [isCont, decide_eq_true_eq]
        have : c.toNat % 64 < 64 := Nat.mod_lt _ (by norm_num)
        omega
      have harith : (0xC0 + c.toNat / 64 - 0xC0) * 64 + (0x80 + c.toNat % 64 - 0x80)
          = c.toNat := by omega
      have s1 : decByte [] (0xC0 + c.toNat / 64) = ([0xC0 + c.toNat / 64], []) := by
        apply decByte_hold
        simp [e1]
      have s2 : decByte [0xC0 + c.toNat / 64] (0x80 + c.toNat % 64) = ([], [c]) := by
        rw [decByte_emit]
        · simp only [List.cons_append, List.nil_append]
          simp [decodeSeq, hc]
          apply charOfNat_eq
          omega
        · simp [e1]
      rw [hb]
      simp [feedDecoder, s1, s2]
    · by_cases h3 : c.toNat < 0x10000
      · have hb : encodeChar c =
            [0xE0 + c.toNat / 4096, 0x80 + c.toNat / 64 % 64, 0x80 + c.toNat % 64] := by
          simp [encodeChar, h1, h2, h3]
        have e1 : expectedLen (0xE0 + c.toNat / 4096) = 3 := by
          have hq : c.toNat / 4096 < 16 := by omega
          have ha : ¬ (0xE0 + c.toNat / 4096 < 0x80) := by omega
          have hb' : ¬ (0xE0 + c.toNat / 4096 < 0xC0) := by omega
          have hc' : ¬ (0xE0 + c.toNat / 4096 < 0xE0) := by omega
          have hd' : 0xE0 + c.toNat / 4096 < 0xF0 := by omega
          simp [expectedLen, ha, hb', hc', hd']
        have hm1 : c.toNat / 64 % 64 < 64 := Nat.mod_lt _ (by norm_num)
        have hm2 : c.toNat % 64 < 64 := Nat.mod_lt _ (by norm_num)
        have hc1 : isCont (0x80 + c.toNat / 64 % 64) = true := by
          simp only [isCont, decide_eq_true_eq]; omega
        have hc2 : isCont (0x80 + c.toNat % 64) = true := by
          simp only [isCont, decide_eq_true_eq]; omega
        have harith : (0xE0 + c.toNat / 4096 - 0xE0) * 4096 +
            (0x80 + c.toNat / 64 % 64 - 0x80) * 64 + (0x80 + c.toNat % 64 - 0x80)
            = c.toNat := by omega
        have s1 : decByte [] (0xE0 + c.toNat / 4096) = ([0xE0 + c.toNat / 4096], []) := by
          apply decByte_hold
          simp [e1]
        have s2 : decByte [0xE0 + c.toNat / 4096] (0x80 + c.toNat / 64 % 64) =
            ([0xE0 + c.toNat / 4096, 0x80 + c.toNat / 64 % 64], []) := by
          apply decByte_hold
          simp [e1]
        have s3 : decByte [0xE0 + c.toNat / 4096, 0x80 + c.toNat / 64 % 64]
            (0x80 + c.toNat % 64) = ([], [c]) := by
          rw [decByte_emit]
          · simp only [List.cons_append, List.nil_append]
            simp [decodeSeq, hc1, hc2]
            apply charOfNat_eq
            omega
          · simp [e1]
        rw [hb]
        simp [feedDecoder, s1, s2, s3]
      · have hb : encodeChar c =
            [0xF0 + c.toNat / 262144, 0x80 + c.toNat / 4096 % 64,
             0x80 + c.toNat / 64 % 64, 0x80 + c.toNat % 64] := by
          simp [encodeChar, h1, h2, h3]
        have e1 : expectedLen (0xF0 + c.toNat / 262144) = 4 := by
          have hq : c.toNat / 262144 < 5 := by omega
          have ha : ¬ (0xF0 + c.toNat / 262144 < 0x80) := by omega
          have hb' : ¬ (0xF0 + c.toNat / 262144 < 0xC0) := by omega
          have hc' : ¬ (0xF0 + c.toNat / 262144 < 0xE0) := by omega
          have hd' : ¬ (0xF0 + c.toNat / 262144 < 0xF0) := by omega
          have he' : 0xF0 + c.toNat / 262144 < 0xF8 := by omega
          simp [expectedLen, ha, hb', hc', hd', he']
        have hm1 : c.toNat / 4096 % 64 < 64 := Nat.mod_lt _ (by norm_num)
        have hm2 : c.toNat / 64 % 64 < 64 := Nat.mod_lt _ (by norm_num)
        have hm3 : c.toNat % 64 < 64 := Nat.mod_lt _ (by norm_num)
        have hc1 : isCont (0x80 + c.toNat / 4096 % 64) = true := by
          simp only [isCont, decide_eq_true_eq]; omega
        have hc2 : isCont (0x80 + c.toNat / 64 % 64) = true := by
          simp only [isCont, decide_eq_true_eq]; omega
        have hc3 : isCont (0x80 + c.toNat % 64) = true := by
          simp only [isCont, decide_eq_true_eq]; omega
        have harith : (0xF0 + c.toNat / 262144 - 0xF0) * 262144 +
            (0x80 + c.toNat / 4096 % 64 - 0x80) * 4096 +
            (0x80 + c.toNat / 64 % 64 - 0x80) * 64 + (0x80 + c.toNat % 64 - 0x80)
            = c.toNat := by omega
        have s1 : decByte [] (0xF0 + c.toNat / 262144) =
            ([0xF0 + c.toNat / 262144], []) := by
          apply decByte_hold
          simp [e1]
        have s2 : decByte [0xF0 + c.toNat / 262144] (0x80 + c.toNat / 4096 % 64) =
            ([0xF0 + c.toNat / 262144, 0x80 + c.toNat / 4096 % 64], []) := by
          apply decByte_hold
          simp [e1]
        have s3 : decByte [0xF0 + c.toNat / 262144, 0x80 + c.toNat / 4096 % 64]
            (0x80 + c.toNat / 64 % 64) =
            ([0xF0 + c.toNat / 262144, 0x80 + c.toNat / 4096 % 64,
              0x80 + c.toNat / 64 % 64], []) := by
          apply decByte_hold
          simp [e1]
        have s4 : decByte [0xF0 + c.toNat / 262144, 0x80 + c.toNat / 4096 % 64,
            0x80 + c.toNat / 64 % 64] (0x80 + c.toNat % 64) = ([], [c]) := by
          rw [decByte_emit]
          · simp only [List.cons_append, List.nil_append]
            simp [decodeSeq, hc1, hc2, hc3]
            apply charOfNat_eq
            omega
          · simp [e1]
        rw [hb]
        simp [feedDecoder, s1, s2, s3, s4]

/-- The streaming decoder, fed the UTF-8 encoding of a text from a clean
state, emits exactly that text and ends with no pending bytes. -/
theorem feedDecoder_encode (s : List Char) :
    feedDecoder [] (utf8Encode s) = ([], s) := by
  induction s with
  | nil => simp [utf8Encode, feedDecoder]
  | cons c cs ih =>
      have : utf8Encode (c :: cs) = encodeChar c ++ utf8Encode cs := by
        simp [utf8Encode]
      rw [this, feedDecoder_append, feedDecoder_encodeChar c, ih]
      simp

/-! ## SSE event-stream parser

Embeds the read loop of `chatService.sendMessage`
(`src/services/chat.ts`, lines 130–177): a growing text buffer is split on
`'\n'`, the final (possibly incomplete) line is kept in the buffer, each
complete line has a trailing `'\r'` stripped and then either terminates the
current event (empty line), sets `eventType` (`event:` prefix, `slice(6)`
trimmed) or sets `eventData` (`data:` prefix, `slice(5)` trimmed); on
stream end a pending event with both fields non-empty is flushed once. -/

/-- `buffer.split('\n')` followed by popping the trailing (possibly
incomplete) element: returns (complete lines, kept remainder). -/
def splitLines : List Char → List (List Char) × List Char
  | [] => ([], [])
  | c :: cs =>
    if c = '\n' then
      let r := splitLines cs
      ([] :: r.1, r.2)
    else
      match splitLines cs with
      | ([], rest) => ([], c :: rest)
      | (l :: ls, rest) => ((c :: l) :: ls, rest)

/-- `line.replace(/\r$/, '')`. -/
def stripCR (l : List Char) : List Char :=
  if l.getLast? = some '\r' then l.dropLast else l

/-- JavaScript ASCII whitespace (the characters relevant to `trim()` here). -/
def isJsWs (c : Char) : Bool :=
  c = ' ' || c = '\t' || c = '\n' || c = '\r' ||
  c = Char.ofNat 0x0B || c = Char.ofNat 0x0C

/-- `s.trim()` on the modelled character set. -/
def jsTrim (l : List Char) : List Char :=
  ((l.dropWhile isJsWs).reverse.dropWhile isJsWs).reverse

/-- The `event:`/`data:` accumulator: (eventType, eventData). -/
abbrev EvState := List Char × List Char

/-- A parsed wire event: (eventType, eventData) handed to
`dispatchSSEEvent`. -/
abbrev WirePair := List Char × List Char

/-- Process one complete line of the stream, as in the `for (const rawLine
of lines)` body of `sendMessage`: empty line dispatches (if both fields
non-empty) and resets; `event:`/`data:` prefixes set the fields; any other
line is ignored. -/
def handleLine (s : EvState) (raw : List Char) : EvState × List WirePair :=
  let line := stripCR raw
  if line = [] then
    (([], []), if s.1 ≠ [] ∧ s.2 ≠ [] then [(s.1, s.2)] else [])
  else if "event:".toList.isPrefixOf line then
    ((jsTrim (line.drop 6), s.2), [])
  else if "data:".toList.isPrefixOf line then
    ((s.1, jsTrim (line.drop 5)), [])
  else
    (s, [])

/-- Process a list of complete lines in order, accumulating dispatched
wire events. -/
def runLines (s : EvState) : List (List Char) → EvState × List WirePair
  | [] => (s, [])
  | l :: ls =>
    let r1 := handleLine s l
    let r2 := runLines r1.1 ls
    (r2.1, r1.2 ++ r2.2)

/-- Parser state of the `sendMessage` read loop: the retained partial-line
buffer plus the current event accumulator. -/
structure SSEState where
  buffer : List Char
  ev : EvState
deriving DecidableEq, Repr

/-- Feed one decoded text chunk to the parser: append to the buffer, split
on `'\n'`, keep the last (incomplete) line, process the complete lines. -/
def sseFeed (st : SSEState) (text : List Char) : SSEState × List WirePair :=
  let sp := splitLines (st.buffer ++ text)
  let r := runLines st.ev sp.1
  (⟨sp.2, r.1⟩, r.2)

/-- The end-of-stream flush: `if (eventType && eventData)
dispatchSSEEvent(...)` when the reader reports `done`. -/
def sseFlush (st : SSEState) : List WirePair :=
  if st.ev.1 ≠ [] ∧ st.ev.2 ≠ [] then [st.ev] else []

/-- Full per-chunk pipeline state: streaming-decoder pending bytes plus the
SSE parser state. -/
structure StreamState where
  decPending : List Nat
  sse : SSEState
deriving DecidableEq, Repr

/-- Feed one raw byte chunk: decode (carrying partial bytes forward), then
feed the decoded text to the SSE parser. -/
def pipeFeed (st : StreamState) (chunk : List Nat) : StreamState × List WirePair :=
  let d := feedDecoder st.decPending chunk
  let s := sseFeed st.sse d.2
  (⟨d.1, s.1⟩, s.2)

/-- Feed a list of raw byte chunks in order. -/
def pipeFeedAll (st : StreamState) : List (List Nat) → StreamState × List WirePair
  | [] => (st, [])
  | ch :: chs =>
    let r1 := pipeFeed st ch
    let r2 := pipeFeedAll r1.1 chs
    (r2.1, r1.2 ++ r2.2)

/-- Initial state of one streamed exchange. -/
def initStream : StreamState := ⟨[], ⟨[], ([], [])⟩⟩

/-- All wire events dispatched over one complete streamed exchange
delivered as the given byte chunks: the per-chunk events plus the final
flush at end of stream. -/
def sessionPairs (chunks : List (List Nat)) : List WirePair :=
  let r := pipeFeedAll initStream chunks
  r.2 ++ sseFlush r.1.sse

theorem splitLines_cons_nl (cs : List Char) :
    splitLines ('\n' :: cs) = ([] :: (splitLines cs).1, (splitLines cs).2) := by
  simp [splitLines]

theorem splitLines_cons_ne (c : Char) (cs : List Char) (h : ¬ c = '\n') :
    splitLines (c :: cs) =
      (match splitLines cs with
       | ([], rest) => ([], c :: rest)
       | (l :: ls, rest) => ((c :: l) :: ls, rest)) := by
  simp [splitLines, h]

/-- Splitting distributes over append: the remainder of the first part is
re-examined together with the second part. -/
theorem splitLines_append (a b : List Char) :
    splitLines (a ++ b) =
      ((splitLines a).1 ++ (splitLines ((splitLines a).2 ++ b)).1,
       (splitLines ((splitLines a).2 ++ b)).2) := by
  induction a with
  | nil => simp [splitLines]
  | cons c cs ih =>
      by_cases hc : c = '\n'
      · subst hc
        rw [List.cons_append, splitLines_cons_nl, splitLines_cons_nl, ih]
        simp
      · rw [List.cons_append, splitLines_cons_ne c _ hc, splitLines_cons_ne c _ hc,
          ih]
        rcases h1 : splitLines cs with ⟨ls1, r1⟩
        rcases h2 : splitLines (r1 ++ b) with ⟨ls2, r2⟩
        cases ls1 with
        | nil =>
            cases ls2 with
            | nil => simp [splitLines_cons_ne c _ hc, h2]
            | cons l2 t2 => simp [splitLines_cons_ne c _ hc, h2]
        | cons l1 t1 => simp [h2]

theorem runLines_append (s : EvState) (xs ys : List (List Char)) :
    runLines s (xs ++ ys) =
      ((runLines (runLines s xs).1 ys).1,
       (runLines s xs).2 ++ (runLines (runLines s xs).1 ys).2) := by
  induction xs generalizing s with
  | nil => simp [runLines]
  | cons l ls ih =>
      simp only [List.cons_append, runLines, List.append_eq]
      rw [ih]
      simp [List.append_assoc]

/-- The parser is a monoid action on decoded text: feeding `a ++ b` equals
feeding `a` then `b`, with the dispatched events concatenated. -/
theorem sseFeed_append (st : SSEState) (a b : List Char) :
    sseFeed st (a ++ b) =
      ((sseFeed (sseFeed st a).1 b).1,
       (sseFeed st a).2 ++ (sseFeed (sseFeed st a).1 b).2) := by
  simp only [sseFeed]
  rw [← List.append_assoc, splitLines_append, runLines_append]

theorem noNl_splitLines (l : List Char) : '\n' ∉ (splitLines l).2 := by
  induction l with
  | nil => simp [splitLines]
  | cons c cs ih =>
      by_cases hc : c = '\n'
      · subst hc
        rw [splitLines_cons_nl]
        exact ih
      · rw [splitLines_cons_ne c _ hc]
        rcases h1 : splitLines cs with ⟨ls1, r1⟩
        rw [h1] at ih
        cases ls1 with
        | nil =>
            simp only []
            intro hmem
            rcases List.mem_cons.mp hmem with h | h
            · exact hc h.symm
            · exact ih h
        | cons l1 t1 => exact ih

theorem splitLines_noNl (l : List Char) (h : '\n' ∉ l) :
    splitLines l = ([], l) := by
  induction l with
  | nil => simp [splitLines]
  | cons c cs ih =>
      have hc : ¬ c = '\n' := fun he => h (he ▸ List.mem_cons_self c cs)
      have hcs : '\n' ∉ cs := fun hm => h (List.mem_cons_of_mem c hm)
      rw [splitLines_cons_ne c _ hc, ih hcs]

theorem sseFeed_nil (st : SSEState) (h : '\n' ∉ st.buffer) :
    sseFeed st [] = (st, []) := by
  simp [sseFeed, splitLines_noNl st.buffer h, runLines]

theorem feedDecoder_nil (st : List Nat) : feedDecoder st [] = (st, []) := rfl

/-- The byte-level per-chunk pipeline is a monoid action on byte chunks. -/
theorem pipeFeed_append (st : StreamState) (a b : List Nat) :
    pipeFeed st (a ++ b) =
      ((pipeFeed (pipeFeed st a).1 b).1,
       (pipeFeed st a).2 ++ (pipeFeed (pipeFeed st a).1 b).2) := by
  simp only [pipeFeed]
  rw [feedDecoder_append, sseFeed_append]

theorem pipeFeed_buffer_noNl (st : StreamState) (ch : List Nat) :
    '\n' ∉ (pipeFeed st ch).1.sse.buffer := by
  simp only [pipeFeed, sseFeed]
  exact noNl_splitLines _

/-- Feeding chunks one by one equals feeding their concatenation in one
chunk, provided the retained line buffer holds no record separator (always
true for reachable states). -/
theorem pipeFeedAll_flatten (chunks : List (List Nat)) (st : StreamState)
    (h : '\n' ∉ st.sse.buffer) :
    pipeFeedAll st chunks = pipeFeed st chunks.flatten := by
  induction chunks generalizing st with
  | nil =>
      simp only [pipeFeedAll, List.flatten_nil, pipeFeed, feedDecoder_nil,
        sseFeed_nil st.sse h]
  | cons ch chs ih =>
      simp only [pipeFeedAll, List.flatten_cons]
      rw [pipeFeed_append, ih _ (pipeFeed_buffer_noNl st ch)]

/-- Wire events of a character stream delivered whole (no byte layer). -/
def textPairs (text : List Char) : List WirePair :=
  let r := sseFeed ⟨[], ([], [])⟩ text
  r.2 ++ sseFlush r.1

/-- A whole byte-encoded text delivered as one chunk dispatches exactly the
events of the text itself (streaming decode of well-formed UTF-8 is lossless). -/
theorem sessionPairs_encode (text : List Char) :
    sessionPairs [utf8Encode text] = textPairs text := by
  simp only [sessionPairs, pipeFeedAll, pipeFeed, initStream, feedDecoder_encode,
    textPairs]
  simp

/-- Chunking invariance at the byte level: any chunking of the same byte
stream dispatches the same ordered wire-event list. -/
theorem sessionPairs_chunking (chunks : List (List Nat)) :
    sessionPairs chunks = sessionPairs [chunks.flatten] := by
  simp only [sessionPairs]
  rw [pipeFeedAll_flatten chunks initStream (by simp [initStream]),
    pipeFeedAll_flatten [chunks.flatten] initStream (by simp [initStream])]
  simp only [List.flatten_cons, List.flatten_nil, List.append_nil]

/-! ## JSON payload decoding

Modelled from the spec: `dispatchSSEEvent` calls the platform `JSON.parse`
on the event data and hands the result to the callback selected by the
event name; the payload shapes are those of the wire format (objects with
string / integer / null / boolean / array / object fields).  Parse failure
is logged and the event dropped; unrecognized event names are ignored. -/

/-- JSON values (numbers restricted to integers, which covers every payload
of the wire format). -/
inductive JVal where
  | null
  | bool (b : Bool)
  | num (n : Int)
  | str (s : List Char)
  | arr (xs : List JVal)
  | obj (fields : List (List Char × JVal))
deriving Inhabited

/-- Parser mode: a single value, the members of an object (after `{`), or
the elements of an array (after `[`). -/
inductive PMode where
  | val
  | members
  | elems
deriving DecidableEq

/-- Skip JSON insignificant whitespace. -/
def skipWs (cs : List Char) : List Char :=
  cs.dropWhile (fun c => c == ' ' || c == '\t' || c == '\n' || c == '\r')

/-- Value of one hex digit. -/
def hexDigit (c : Char) : Option Nat :=
  if '0' ≤ c ∧ c ≤ '9' then some (c.toNat - '0'.toNat)
  else if 'a' ≤ c ∧ c ≤ 'f' then some (c.toNat - 'a'.toNat + 10)
  else if 'A' ≤ c ∧ c ≤ 'F' then some (c.toNat - 'A'.toNat + 10)
  else none

/-- One-character escape sequences of JSON strings. -/
def escChar (c : Char) : Option Char :=
  if c = '"' then some '"'
  else if c = '\\' then some '\\'
  else if c = '/' then some '/'
  else if c = 'n' then some '\n'
  else if c = 't' then some '\t'
  else if c = 'r' then some '\r'
  else if c = 'b' then some (Char.ofNat 8)
  else if c = 'f' then some (Char.ofNat 12)
  else none

/-- Parse the body of a JSON string after the opening quote; returns the
decoded characters and the input after the closing quote. -/
def parseStrBody : List Char → Option (List Char × List Char)
  | [] => none
  | c :: r =>
    if c = '"' then some ([], r)
    else if c = '\\' then
      match r with
      | [] => none
      | e :: r2 =>
        if e = 'u' then
          match r2 with
          | h1 :: h2 :: h3 :: h4 :: r3 =>
            match hexDigit h1, hexDigit h2, hexDigit h3, hexDigit h4 with
            | some d1, some d2, some d3, some d4 =>
                (fun p => (Char.ofNat (((d1 * 16 + d2) * 16 + d3) * 16 + d4) :: p.1,
                  p.2)) <$> parseStrBody r3
            | _, _, _, _ => none
          | _ => none
        else
          match escChar e with
          | some ec => (fun p => (ec :: p.1, p.2)) <$> parseStrBody r2
          | none => none
    else (fun p => (c :: p.1, p.2)) <$> parseStrBody r

/-- Parse an integer JSON number starting at `cs`. -/
def parseNumBody (cs : List Char) : Option (Int × List Char) :=
  let neg := cs.headD ' ' == '-'
  let rest := if neg then cs.drop 1 else cs
  let ds := rest.takeWhile Char.isDigit
  if ds.isEmpty then none
  else
    let n : Nat := ds.foldl (fun a c => a * 10 + (c.toNat - '0'.toNat)) 0
    some (if neg then -(n : Int) else (n : Int), rest.drop ds.length)

/-- Recursive-descent JSON parser with explicit fuel (structural, so that it
evaluates inside the kernel; `jsonParse` supplies ample fuel). -/
def parseJ : Nat → PMode → List Char → Option (JVal × List Char)
  | 0, _, _ => none
  | f + 1, PMode.val, cs =>
    match skipWs cs with
    | [] => none
    | c :: rest =>
      if c = '{' then
        match skipWs rest with
        | '}' :: r => some (JVal.obj [], r)
        | r => parseJ f PMode.members r
      else if c = '[' then
        match skipWs rest with
        | ']' :: r => some (JVal.arr [], r)
        | r => parseJ f PMode.elems r
      else if c = '"' then
        match parseStrBody rest with
        | some (s, r) => some (JVal.str s, r)
        | none => none
      else if c = 't' then
        if "rue".toList.isPrefixOf rest then some (JVal.bool true, rest.drop 3)
        else none
      else if c = 'f' then
        if "alse".toList.isPrefixOf rest then some (JVal.bool false, rest.drop 4)
        else none
      else if c = 'n' then
        if "ull".toList.isPrefixOf rest then some (JVal.null, rest.drop 3)
        else none
      else if c == '-' || c.isDigit then
        match parseNumBody (c :: rest) with
        | some (n, r) => some (JVal.num n, r)
        | none => none
      else none
  | f + 1, PMode.members, cs =>
    match skipWs cs with
    | '"' :: rest =>
      match parseStrBody rest with
      | some (k, r1) =>
        match skipWs r1 with
        | ':' :: r2 =>
          match parseJ f PMode.val r2 with
          | some (v, r3) =>
            match skipWs r3 with
            | ',' :: r4 =>
              match parseJ f PMode.members r4 with
              | some (JVal.obj fs, r5) => some (JVal.obj ((k, v) :: fs), r5)
              | _ => none
            | '}' :: r4 => some (JVal.obj [(k, v)], r4)
            | _ => none
          | none => none
        | _ => none
      | none => none
    | _ => none
  | f + 1, PMode.elems, cs =>
    match parseJ f PMode.val cs with
    | some (v, r1) =>
      match skipWs r1 with
      | ',' :: r2 =>
        match parseJ f PMode.elems r2 with
        | some (JVal.arr vs, r3) => some (JVal.arr (v :: vs), r3)
        | _ => none
      | ']' :: r2 => some (JVal.arr [v], r2)
      | _ => none
    | none => none

/-- `JSON.parse`: a complete value with nothing but whitespace after it. -/
def jsonParse (cs : List Char) : Option JVal :=
  match parseJ (cs.length + 1) PMode.val cs with
  | some (v, r) => if skipWs r = [] then some v else none
  | none => none

/-- Field lookup in a parsed JSON object. -/
def getField (fs : List (List Char × JVal)) (k : List Char) : Option JVal :=
  match fs.find? (fun f => f.1 == k) with
  | some f => some f.2
  | none => none

/-! ## Event dispatcher and conversation-window model -/

/-- A semantic stream event: which callback `dispatchSSEEvent` invokes, with
the decoded payload it passes. -/
inductive SemEvent where
  | token (content : List Char)
  | toolCall (name : List Char) (args : JVal)
  | toolResult (name : List Char) (result : List Char)
  | done (messageId : Option Int) (conversationName : List Char)
  | error (detail : List Char)

/-- `dispatchSSEEvent` (src/services/chat.ts, lines 18–53): parse the data
as JSON and select the callback by event name; parse failures are dropped,
unknown names ignored.  Payload field shapes follow the wire format. -/
def dispatchSSEEvent (eventType eventData : List Char) : Option SemEvent :=
  match jsonParse eventData with
  | none => none
  | some j =>
    if eventType = "token".toList then
      match j with
      | JVal.obj fs =>
        match getField fs "content".toList with
        | some (JVal.str s) => some (SemEvent.token s)
        | _ => none
      | _ => none
    else if eventType = "tool_call".toList then
      match j with
      | JVal.obj fs =>
        match getField fs "name".toList, getField fs "args".toList with
        | some (JVal.str n), some a => some (SemEvent.toolCall n a)
        | _, _ => none
      | _ => none
    else if eventType = "tool_result".toList then
      match j with
      | JVal.obj fs =>
        match getField fs "name".toList, getField fs "result".toList with
        | some (JVal.str n), some (JVal.str r) => some (SemEvent.toolResult n r)
        | _, _ => none
      | _ => none
    else if eventType = "done".toList then
      match j with
      | JVal.obj fs =>
        let mid := match getField fs "message_id".toList with
          | some (JVal.num n) => some n
          | _ => none
        let cname := match getField fs "conversation_name".toList with
          | some (JVal.str s) => s
          | _ => []
        some (SemEvent.done mid cname)
      | _ => none
    else if eventType = "error".toList then
      match j with
      | JVal.obj fs =>
        match getField fs "detail".toList with
        | some (JVal.str d) => some (SemEvent.error d)
        | _ => none
      | _ => none
    else none

/-- All semantic events dispatched for a list of wire pairs. -/
def decodePairs (ps : List WirePair) : List SemEvent :=
  ps.filterMap (fun p => dispatchSSEEvent p.1 p.2)

/-- Message roles of the UI model (`'human' | 'ai'`). -/
inductive Role where
  | human
  | ai
deriving DecidableEq, Inhabited

/-- `ToolCallInfo` of src/types/chat.ts: name, argument object, result
(`null` until resolved). -/
structure ToolCallInfo where
  name : List Char
  args : JVal
  result : Option (List Char)

/-- `StreamingMessage` of src/types/chat.ts: optional id, role, content,
optional streaming flag, optional tool-call list (absent fields are
`none`). -/
structure StreamingMessage where
  id : Option Int := none
  role : Role
  content : List Char
  isStreaming : Option Bool := none
  toolCalls : Option (List ToolCallInfo) := none

instance : Inhabited StreamingMessage :=
  ⟨{ role := Role.ai, content := [] }⟩

/-- JavaScript falsiness of a tool result (`!t.result`): `null` and the
empty string are both falsy. -/
def resultFalsy (r : Option (List Char)) : Bool :=
  match r with
  | none => true
  | some s => s.isEmpty

/-- `currentToolCalls.find((t) => t.name === data.name && !t.result)`
followed by `tc.result = data.result`: attach the result to the earliest
invocation of that name whose result is still falsy. -/
def attachResult (n r : List Char) : List ToolCallInfo → List ToolCallInfo
  | [] => []
  | t :: ts =>
    if t.name = n ∧ resultFalsy t.result = true then
      { t with result := some r } :: ts
    else t :: attachResult n r ts

/-- The `setMessages` update pattern shared by every callback: replace the
message at the last index if its role is `'ai'`. -/
def updateLastIfAi (f : StreamingMessage → StreamingMessage)
    (msgs : List StreamingMessage) : List StreamingMessage :=
  match msgs.getLast? with
  | some m => if m.role = Role.ai then msgs.dropLast ++ [f m] else msgs
  | none => msgs

/-- State of one streamed exchange inside `handleSendMessage`: the message
list plus the local `currentToolCalls` array. -/
structure ExchangeState where
  messages : List StreamingMessage
  toolCalls : List ToolCallInfo

/-- The five callbacks of `handleSendMessage` (ChatWindow.tsx, lines
140–227), applied to the exchange state. -/
def applyEvent (st : ExchangeState) (e : SemEvent) : ExchangeState :=
  match e with
  | SemEvent.token c =>
      let msgs := updateLastIfAi (fun m => { m with content := m.content ++ c }) st.messages
      { st with messages := msgs }
  | SemEvent.toolCall n a =>
      let tcs := st.toolCalls ++ [⟨n, a, none⟩]
      let msgs := updateLastIfAi (fun m => { m with toolCalls := some tcs }) st.messages
      { messages := msgs, toolCalls := tcs }
  | SemEvent.toolResult n r =>
      let tcs := attachResult n r st.toolCalls
      let msgs := updateLastIfAi (fun m => { m with toolCalls := some tcs }) st.messages
      { messages := msgs, toolCalls := tcs }
  | SemEvent.done mid _ =>
      let msgs := updateLastIfAi (fun m => { m with id := mid, isStreaming := some false }) st.messages
      { st with messages := msgs }
  | SemEvent.error d =>
      let msgs := updateLastIfAi (fun m => { m with content := "Error: ".toList ++ d, isStreaming := some false }) st.messages
      { st with messages := msgs }

/-- How the transport of one exchange behaves, from `sendMessage`'s point
of view: failure to fetch, a non-2xx response, a missing body, or a byte
stream (with an optional read error thrown after the listed chunks). -/
inductive Transport where
  | netFail
  | httpFail (detail : List Char)
  | noBody
  | ok (chunks : List (List Nat)) (readErr : Option (List Char))

/-- The wire pairs dispatched when the read loop ends early on a thrown
read error: no end-of-stream flush happens. -/
def sessionPairsNoFlush (chunks : List (List Nat)) : List WirePair :=
  (pipeFeedAll initStream chunks).2

/-- The ordered list of callback invocations `sendMessage` performs for a
given transport behavior (src/services/chat.ts, lines 92–184): transport
failures synthesize a single `error` callback; a working stream dispatches
the decoded events, plus a trailing synthesized `error` if reading threw. -/
def sendMessageEvents : Transport → List SemEvent
  | Transport.netFail => [SemEvent.error "Network error: failed to connect".toList]
  | Transport.httpFail d => [SemEvent.error d]
  | Transport.noBody => [SemEvent.error "No response body".toList]
  | Transport.ok chunks none => decodePairs (sessionPairs chunks)
  | Transport.ok chunks (some e) =>
      decodePairs (sessionPairsNoFlush chunks) ++
        [SemEvent.error ("Stream error: ".toList ++ e)]

/-- The human message appended by `handleSendMessage`. -/
def humanMsg (content : List Char) : StreamingMessage :=
  { role := Role.human, content := content }

/-- The placeholder assistant message appended by `handleSendMessage`:
empty content, `isStreaming: true`, empty tool list. -/
def aiPlaceholder : StreamingMessage :=
  { role := Role.ai, content := [], isStreaming := some true, toolCalls := some [] }

/-- Window-level state of `ChatWindow`: the message list and the
window-level `isStreaming` flag that disables the input. -/
structure WindowState where
  messages : List StreamingMessage
  isStreaming : Bool

/-- `handleSendMessage` (ChatWindow.tsx, lines 101–245) for one exchange:
guard, append human message, append placeholder, run the exchange
callbacks, finally reset the window-level streaming flag. -/
def handleSendMessage (st : WindowState) (content : List Char)
    (t : Transport) : WindowState :=
  if jsTrim content = [] ∨ st.isStreaming then st
  else
    let msgs := st.messages ++ [humanMsg content] ++ [aiPlaceholder]
    let ex := (sendMessageEvents t).foldl applyEvent ⟨msgs, []⟩
    ⟨ex.messages, false⟩

/-- Every intermediate message list during one exchange (one entry before
each event, plus the final state). -/
def exchangePoints (st : ExchangeState) : List SemEvent → List (List StreamingMessage)
  | [] => [st.messages]
  | e :: es => st.messages :: exchangePoints (applyEvent st e) es

/-- Every intermediate message list of one `handleSendMessage` call. -/
def sendPoints (st : WindowState) (content : List Char) (t : Transport) :
    List (List StreamingMessage) :=
  if jsTrim content = [] ∨ st.isStreaming then [st.messages]
  else
    let msgs1 := st.messages ++ [humanMsg content]
    st.messages :: msgs1 ::
      exchangePoints ⟨msgs1 ++ [aiPlaceholder], []⟩ (sendMessageEvents t)

/-- Run a sequence of sends (each with its transport behavior). -/
def runTrace (st : WindowState) : List (List Char × Transport) → WindowState
  | [] => st
  | (c, t) :: rest => runTrace (handleSendMessage st c t) rest

/-- Every intermediate message list over a sequence of sends. -/
def tracePoints (st : WindowState) :
    List (List Char × Transport) → List (List StreamingMessage)
  | [] => [st.messages]
  | (c, t) :: rest =>
      sendPoints st c t ++ tracePoints (handleSendMessage st c t) rest

/-! ## Voice capture controller

Embeds the speech-recognition state of `ChatInput.tsx`: the React state
(`input`, `isRecording`, `interimTranscript`, `finalTranscript`), the refs
(`recognitionRef`, `preRecordingInputRef`), and — for the provider session —
whether its `onend` handler is still attached and whether it is running. -/

/-- State of the `ChatInput` component plus its provider session. -/
structure VoiceState where
  input : List Char
  isRecording : Bool
  interim : List Char
  final : List Char
  preRecording : List Char
  refAttached : Bool
  onendAttached : Bool
  sessionRunning : Bool
deriving DecidableEq

/-- `supportsVoice`: availability of the browser speech-recognition API;
modelled as available (without it every voice operation is a no-op). -/
def supportsVoice : Bool := true

/-- `startRecording`: snapshot the input into `preRecordingInputRef`, clear
transcripts, attach handlers, store the session in the ref and start it. -/
def startRecording (s : VoiceState) : VoiceState :=
  if !supportsVoice || s.isRecording then s
  else
    { s with
      preRecording := s.input, final := [], interim := [],
      refAttached := true, onendAttached := true, sessionRunning := true,
      isRecording := true }

/-- `stopRecording`: if a session is held, null the ref, null its `onend`,
and stop it — in that order — then clear the recording flag and the
transcripts. -/
def stopRecording (s : VoiceState) : VoiceState :=
  let s1 :=
    if s.refAttached then
      { s with
        refAttached := false, onendAttached := false,
        sessionRunning := false }
    else s
  { s1 with isRecording := false, interim := [], final := [] }

/-- `confirmRecording`: keep the input (it already holds the merged
transcript) and stop. -/
def confirmRecording (s : VoiceState) : VoiceState :=
  stopRecording s

/-- `cancelRecording`: restore the input to its pre-recording snapshot,
then stop. -/
def cancelRecording (s : VoiceState) : VoiceState :=
  stopRecording { s with input := s.preRecording }

/-- The unmount cleanup effect: same ref/onend/stop sequence as
`stopRecording`, without touching the React state. -/
def unmountCleanup (s : VoiceState) : VoiceState :=
  if s.refAttached then
    { s with
      refAttached := false, onendAttached := false,
      sessionRunning := false }
  else s

/-- One provider recognition result: (isFinal, transcript). -/
abbrev SpeechResult := Bool × List Char

/-- `recognition.onresult`: recompute `final` and `interim` from the full
results list, then write `pre + ' ' + final + interim` (or `final +
interim` when the snapshot is empty) into the input. -/
def providerResult (rs : List SpeechResult) (s : VoiceState) : VoiceState :=
  let fin := (rs.filter (fun r => r.1)).flatMap (fun r => r.2)
  let inter := (rs.filter (fun r => !r.1)).flatMap (fun r => r.2)
  let combined :=
    if s.preRecording ≠ [] then s.preRecording ++ ' ' :: (fin ++ inter)
    else fin ++ inter
  { s with final := fin, interim := inter, input := combined }

/-- A provider `end` event: the session stops; if the `onend` handler is
still attached it runs and, if `recognitionRef.current` is non-null,
restarts the session (a start race is swallowed). -/
def providerEnd (s : VoiceState) : VoiceState :=
  let s1 := { s with sessionRunning := false }
  if s1.onendAttached then
    if s1.refAttached then { s1 with sessionRunning := true } else s1
  else s1

/-- `recognition.onerror`: `no-speech` is ignored, anything else only
logged — no state change either way. -/
def providerErrorEvent (_e : List Char) (s : VoiceState) : VoiceState :=
  s

/-- Events the provider can deliver during a capture. -/
inductive ProvEvent where
  | result (rs : List SpeechResult)
  | ended
  | errored (e : List Char)

/-- Apply one provider event. -/
def applyProv (s : VoiceState) : ProvEvent → VoiceState
  | ProvEvent.result rs => providerResult rs s
  | ProvEvent.ended => providerEnd s
  | ProvEvent.errored e => providerErrorEvent e s

/-- Apply a sequence of provider events. -/
def applyProvList (s : VoiceState) : List ProvEvent → VoiceState
  | [] => s
  | e :: es => applyProvList (applyProv s e) es

/-! ## Invariant machinery for the exchange model -/

/-- Terminal events: `done` and `error` (the callbacks that clear the
placeholder's streaming flag). -/
def isTerminal : SemEvent → Bool
  | SemEvent.done _ _ => true
  | SemEvent.error _ => true
  | _ => false

/-- Does the event list contain a terminal event? -/
def hasTerminal (es : List SemEvent) : Bool := es.any isTerminal

/-- Is the message's streaming flag set? -/
def flaggedTrue (m : StreamingMessage) : Bool := m.isStreaming == some true

/-- The invariant claimed for the message list: at most one message has its
streaming flag set, and a flagged message sits at the last position and has
the assistant role. -/
def streamingInvariant (msgs : List StreamingMessage) : Prop :=
  (msgs.filter flaggedTrue).length ≤ 1 ∧
  ∀ i ∈ List.range msgs.length, flaggedTrue (msgs.getD i default) = true →
    i + 1 = msgs.length ∧ (msgs.getD i default).role = Role.ai

/-- No message in the list has its streaming flag set. -/
def noFlagged (msgs : List StreamingMessage) : Prop :=
  ∀ m ∈ msgs, flaggedTrue m = false

instance (msgs : List StreamingMessage) : Decidable (noFlagged msgs) :=
  inferInstanceAs (Decidable (∀ m ∈ msgs, flaggedTrue m = false))

instance (msgs : List StreamingMessage) : Decidable (streamingInvariant msgs) :=
  inferInstanceAs (Decidable ((msgs.filter flaggedTrue).length ≤ 1 ∧
    ∀ i ∈ List.range msgs.length, flaggedTrue (msgs.getD i default) = true →
      i + 1 = msgs.length ∧ (msgs.getD i default).role = Role.ai))

theorem updateLastIfAi_concat (f : StreamingMessage → StreamingMessage)
    (msgs0 : List StreamingMessage) (m : StreamingMessage)
    (hr : m.role = Role.ai) :
    updateLastIfAi f (msgs0 ++ [m]) = msgs0 ++ [f m] := by
  unfold updateLastIfAi
  rw [List.getLast?_concat]
  simp [hr, List.dropLast_concat]

/-- One event keeps the message list in the shape `prefix ++ [assistant]`,
only rewriting the final assistant message; `done`/`error` clear its
streaming flag, the other events keep it. -/
theorem applyEvent_concat (st : ExchangeState) (e : SemEvent)
    (msgs0 : List StreamingMessage) (m : StreamingMessage)
    (hm : st.messages = msgs0 ++ [m]) (hr : m.role = Role.ai) :
    ∃ m1, (applyEvent st e).messages = msgs0 ++ [m1] ∧ m1.role = Role.ai ∧
      m1.isStreaming = (if isTerminal e then some false else m.isStreaming) := by
  cases e with
  | token c =>
      refine ⟨{ m with content := m.content ++ c }, ?_, hr, by simp [isTerminal]⟩
      simp [applyEvent, hm, updateLastIfAi_concat _ _ _ hr]
  | toolCall n a =>
      refine ⟨{ m with toolCalls := some (st.toolCalls ++ [⟨n, a, none⟩]) }, ?_, hr,
        by simp [isTerminal]⟩
      simp [applyEvent, hm, updateLastIfAi_concat _ _ _ hr]
  | toolResult n r =>
      refine ⟨{ m with toolCalls := some (attachResult n r st.toolCalls) }, ?_, hr,
        by simp [isTerminal]⟩
      simp [applyEvent, hm, updateLastIfAi_concat _ _ _ hr]
  | done mid cn =>
      refine ⟨{ m with id := mid, isStreaming := some false }, ?_, hr,
        by simp [isTerminal]⟩
      simp [applyEvent, hm, updateLastIfAi_concat _ _ _ hr]
  | error d =>
      refine ⟨{ m with content := "Error: ".toList ++ d, isStreaming := some false },
        ?_, hr, by simp [isTerminal]⟩
      simp [applyEvent, hm, updateLastIfAi_concat _ _ _ hr]

/-- Running a whole event list keeps the `prefix ++ [assistant]` shape; the
final streaming flag is cleared exactly when the list held a terminal
event. -/
theorem foldl_applyEvent_concat (es : List SemEvent) (st : ExchangeState)
    (msgs0 : List StreamingMessage) (m : StreamingMessage)
    (hm : st.messages = msgs0 ++ [m]) (hr : m.role = Role.ai) :
    ∃ m', (es.foldl applyEvent st).messages = msgs0 ++ [m'] ∧ m'.role = Role.ai ∧
      m'.isStreaming = (if hasTerminal es then some false else m.isStreaming) := by
  induction es generalizing st m with
  | nil =>
      refine ⟨m, by simpa using hm, hr, ?_⟩
      simp [hasTerminal]
  | cons e es ih =>
      obtain ⟨m1, hm1, hr1, hfl1⟩ := applyEvent_concat st e msgs0 m hm hr
      obtain ⟨m', hm', hr', hfl'⟩ := ih (applyEvent st e) m1 hm1 hr1
      refine ⟨m', by simpa using hm', hr', ?_⟩
      rw [hfl', hfl1]
      by_cases h1 : hasTerminal es = true <;> by_cases h2 : isTerminal e = true <;>
        simp [hasTerminal, List.any_cons, h1, h2]

/-- Token events only append to the final assistant message's content. -/
theorem foldl_tokens (fs : List (List Char)) (st : ExchangeState)
    (msgs0 : List StreamingMessage) (m : StreamingMessage)
    (hm : st.messages = msgs0 ++ [m]) (hr : m.role = Role.ai) :
    (fs.map SemEvent.token).foldl applyEvent st =
      ⟨msgs0 ++ [{ m with content := m.content ++ fs.flatten }], st.toolCalls⟩ := by
  induction fs generalizing st m with
  | nil =>
      obtain ⟨ms, tcs⟩ := st
      simp only at hm
      subst hm
      simp
  | cons f fs ih =>
      have hstep : applyEvent st (SemEvent.token f) =
          ⟨msgs0 ++ [{ m with content := m.content ++ f }], st.toolCalls⟩ := by
        simp [applyEvent, hm, updateLastIfAi_concat _ _ _ hr]
      simp only [List.map_cons, List.foldl_cons, hstep]
      have h2 := ih ⟨msgs0 ++ [{ m with content := m.content ++ f }], st.toolCalls⟩
        { m with content := m.content ++ f } rfl hr
      rw [h2]
      simp [List.append_assoc]

theorem noFlagged_invariant (msgs : List StreamingMessage)
    (h : noFlagged msgs) : streamingInvariant msgs := by
  constructor
  · have : msgs.filter flaggedTrue = [] := List.filter_eq_nil_iff.mpr (by
      intro m hm
      simp [h m hm])
    simp [this]
  · intro i hi hflag
    rw [List.mem_range] at hi
    rw [List.getD_eq_getElem _ _ hi] at hflag
    have := h _ (List.getElem_mem hi)
    rw [this] at hflag
    cases hflag

theorem concat_invariant (msgs0 : List StreamingMessage) (m : StreamingMessage)
    (h0 : noFlagged msgs0) (hr : m.role = Role.ai) :
    streamingInvariant (msgs0 ++ [m]) := by
  constructor
  · rw [List.filter_append]
    have : msgs0.filter flaggedTrue = [] := List.filter_eq_nil_iff.mpr (by
      intro x hx
      simp [h0 x hx])
    rw [this]
    cases hf : flaggedTrue m <;> simp [List.filter, hf]
  · intro i hi hflag
    rw [List.mem_range, List.length_append] at hi
    by_cases hlt : i < msgs0.length
    · rw [List.getD_append _ _ _ _ hlt, List.getD_eq_getElem _ _ hlt] at hflag
      have := h0 _ (List.getElem_mem hlt)
      rw [this] at hflag
      cases hflag
    · have hge : msgs0.length ≤ i := Nat.le_of_not_lt hlt
      have hieq : i = msgs0.length := by
        simp only [List.length_singleton] at hi
        omega
      subst hieq
      rw [List.getD_append_right _ _ _ _ hge]
      simp [List.length_append, hr]

/-- Every intermediate message list of one exchange satisfies the
invariant, provided no earlier message was flagged. -/
theorem exchangePoints_invariant (es : List SemEvent) (st : ExchangeState)
    (msgs0 : List StreamingMessage) (m : StreamingMessage)
    (hm : st.messages = msgs0 ++ [m]) (hr : m.role = Role.ai)
    (h0 : noFlagged msgs0) :
    ∀ msgs ∈ exchangePoints st es, streamingInvariant msgs := by
  induction es generalizing st m with
  | nil =>
      intro msgs hmem
      simp only [exchangePoints, List.mem_singleton] at hmem
      subst hmem
      rw [hm]
      exact concat_invariant msgs0 m h0 hr
  | cons e es ih =>
      intro msgs hmem
      simp only [exchangePoints, List.mem_cons] at hmem
      rcases hmem with hmem | hmem
      · subst hmem
        rw [hm]
        exact concat_invariant msgs0 m h0 hr
      · obtain ⟨m1, hm1, hr1, _⟩ := applyEvent_concat st e msgs0 m hm hr
        exact ih (applyEvent st e) m1 hm1 hr1 msgs hmem

theorem guard_false (st : WindowState) (content : List Char)
    (hc : ¬ jsTrim content = []) (hs : st.isStreaming = false) :
    ¬ (jsTrim content = [] ∨ st.isStreaming = true) := by
  intro h
  rcases h with h | h
  · exact hc h
  · rw [hs] at h
    cases h

theorem noFlagged_append (a b : List StreamingMessage)
    (ha : noFlagged a) (hb : noFlagged b) : noFlagged (a ++ b) := by
  intro m hm
  rcases List.mem_append.mp hm with h | h
  · exact ha m h
  · exact hb m h

theorem noFlagged_human (content : List Char) :
    noFlagged [humanMsg content] := by
  intro m hm
  simp only [List.mem_singleton] at hm
  subst hm
  rfl

/-- After an exchange whose callback list held a terminal event, no message
is left flagged. -/
theorem handleSendMessage_noFlagged (st : WindowState) (content : List Char)
    (t : Transport) (h0 : noFlagged st.messages)
    (hT : hasTerminal (sendMessageEvents t) = true) :
    noFlagged (handleSendMessage st content t).messages := by
  unfold handleSendMessage
  by_cases hg : jsTrim content = [] ∨ st.isStreaming = true
  · rw [if_pos hg]
    exact h0
  · rw [if_neg hg]
    obtain ⟨m', hm', hr', hfl'⟩ := foldl_applyEvent_concat (sendMessageEvents t)
      ⟨st.messages ++ [humanMsg content] ++ [aiPlaceholder], []⟩
      (st.messages ++ [humanMsg content]) aiPlaceholder rfl rfl
    show noFlagged ((sendMessageEvents t).foldl applyEvent
      ⟨st.messages ++ [humanMsg content] ++ [aiPlaceholder], []⟩).messages
    rw [hm']
    apply noFlagged_append
    · exact noFlagged_append _ _ h0 (noFlagged_human content)
    · intro m hm
      simp only [List.mem_singleton] at hm
      subst hm
      simp [flaggedTrue, hfl', hT]

/-- The exchange of C1's truncation counterexample: a single `token` event,
then the byte stream ends with no `done`/`error` ever dispatched. -/
def truncatedExchange : WindowState :=
  handleSendMessage ⟨[], false⟩ "hi".toList
    (Transport.ok
      [utf8Encode "event: token\ndata: \x7b\"content\":\"Hi\"\x7d\n\n".toList]
      none)

/-- C1 (counterexample): when the byte stream ends without any `done` or
`error` event, the placeholder assistant message keeps `isStreaming = true`
(with the token text accumulated) — the streaming flag is NOT cleared,
contradicting the claim that every such exchange clears it. -/
theorem truncation_flag_counterexample :
    (truncatedExchange.messages.getLast?).map
        (fun m => (m.content, m.isStreaming)) = some ("Hi".toList, some true)
    ∧ ¬ ((truncatedExchange.messages.getLast?).map (fun m => m.isStreaming)
        = some (some false))
    ∧ truncatedExchange.isStreaming = false := by
  decide

/-- C1 (amended): the placeholder's streaming flag ends up `false` exactly
when the exchange's callback list held a terminal outcome — a `done`
event, an `error` event, or a synthesized transport-failure error (network
failure, non-2xx response, missing body, or a mid-stream read error all
synthesize one); when the stream ends with no terminal event having been
dispatched, the placeholder's flag remains `true` and only the
window-level streaming flag is reset. -/
theorem streaming_flag_amended (st : WindowState) (content : List Char)
    (t : Transport) (hc : ¬ jsTrim content = []) (hs : st.isStreaming = false) :
    (((handleSendMessage st content t).messages.getLast?).map
        (fun m => m.isStreaming)
      = some (if hasTerminal (sendMessageEvents t) then some false else some true))
    ∧ (handleSendMessage st content t).isStreaming = false
    ∧ hasTerminal (sendMessageEvents Transport.netFail) = true
    ∧ (∀ d, hasTerminal (sendMessageEvents (Transport.httpFail d)) = true)
    ∧ hasTerminal (sendMessageEvents Transport.noBody) = true
    ∧ (∀ chunks e, hasTerminal (sendMessageEvents (Transport.ok chunks (some e)))
        = true) := by
  refine ⟨?_, ?_, ?_, ?_, ?_, ?_⟩
  · unfold handleSendMessage
    rw [if_neg (guard_false st content hc hs)]
    obtain ⟨m', hm', hr', hfl'⟩ := foldl_applyEvent_concat (sendMessageEvents t)
      ⟨st.messages ++ [humanMsg content] ++ [aiPlaceholder], []⟩
      (st.messages ++ [humanMsg content]) aiPlaceholder rfl rfl
    show (((sendMessageEvents t).foldl applyEvent
        ⟨st.messages ++ [humanMsg content] ++ [aiPlaceholder], []⟩).messages.getLast?).map
        (fun m => m.isStreaming) = _
    rw [hm', List.getLast?_concat]
    simp only [Option.map_some']
    rw [hfl']
    rfl
  · unfold handleSendMessage
    rw [if_neg (guard_false st content hc hs)]
  · rfl
  · intro d
    rfl
  · rfl
  · intro chunks e
    show hasTerminal (decodePairs (sessionPairsNoFlush chunks) ++
      [SemEvent.error ("Stream error: ".toList ++ e)]) = true
    simp [hasTerminal, List.any_append, isTerminal]

/-- Witness for the amended C1 at a concrete input: a plain network failure
synthesizes a terminal error and the flag ends `false`. -/
theorem streaming_flag_amended_witness :
    ¬ jsTrim "hi".toList = [] ∧ (⟨[], false⟩ : WindowState).isStreaming = false ∧
    (((handleSendMessage ⟨[], false⟩ "hi".toList Transport.netFail).messages.getLast?).map
        (fun m => m.isStreaming)
      = some (if hasTerminal (sendMessageEvents Transport.netFail) then some false
          else some true)) := by
  refine ⟨by decide, rfl, ?_⟩
  exact (streaming_flag_amended ⟨[], false⟩ "hi".toList Transport.netFail
    (by decide) rfl).1

/-- The two-send trace of C3's counterexample: both streams end with no
terminal event. -/
def doubleTruncatedTrace : List (List Char × Transport) :=
  [("hi".toList, Transport.ok [] none), ("yo".toList, Transport.ok [] none)]

/-- C3 (counterexample): after a first exchange whose stream ended with no
terminal event, a second send produces an intermediate state in which two
messages carry `isStreaming = true` (and the first of them is not the most
recently appended assistant message) — the claimed invariant fails. -/
theorem streaming_invariant_counterexample :
    ¬ streamingInvariant
        ((tracePoints ⟨[], false⟩ doubleTruncatedTrace).getD 5 [])
    ∧ (((tracePoints ⟨[], false⟩ doubleTruncatedTrace).getD 5 []).filter
        flaggedTrue).length = 2 := by
  refine ⟨by decide, by decide⟩

/-- C3 (amended): provided every exchange of the trace receives a terminal
outcome (`done`, `error`, or a synthesized transport failure), every
intermediate message list satisfies the invariant: at most one message is
flagged streaming, and a flagged message is the most recently appended one
and has the assistant role.  (Without that proviso a truncated stream
leaves its placeholder flagged and a later send breaks the invariant, as
the counterexample shows.) -/
theorem streaming_invariant_amended (st : WindowState)
    (tr : List (List Char × Transport)) (h0 : noFlagged st.messages)
    (hT : ∀ p ∈ tr, hasTerminal (sendMessageEvents p.2) = true) :
    ∀ msgs ∈ tracePoints st tr, streamingInvariant msgs := by
  induction tr generalizing st with
  | nil =>
      intro msgs hmem
      simp only [tracePoints, List.mem_singleton] at hmem
      subst hmem
      exact noFlagged_invariant _ h0
  | cons p rest ih =>
      intro msgs hmem
      simp only [tracePoints] at hmem
      rcases List.mem_append.mp hmem with hmem | hmem
      · -- a point inside this send
        revert hmem
        unfold sendPoints
        by_cases hg : jsTrim p.1 = [] ∨ st.isStreaming = true
        · rw [if_pos hg]
          intro hmem
          simp only [List.mem_singleton] at hmem
          subst hmem
          exact noFlagged_invariant _ h0
        · rw [if_neg hg]
          intro hmem
          simp only [List.mem_cons] at hmem
          rcases hmem with hmem | hmem | hmem
          · subst hmem
            exact noFlagged_invariant _ h0
          · subst hmem
            exact noFlagged_invariant _
              (noFlagged_append _ _ h0 (noFlagged_human p.1))
          · exact exchangePoints_invariant (sendMessageEvents p.2) _
              (st.messages ++ [humanMsg p.1]) aiPlaceholder rfl rfl
              (noFlagged_append _ _ h0 (noFlagged_human p.1)) msgs hmem
      · exact ih (handleSendMessage st p.1 p.2)
          (handleSendMessage_noFlagged st p.1 p.2 h0
            (hT p (List.mem_cons_self p rest)))
          (fun q hq => hT q (List.mem_cons_of_mem p hq)) msgs hmem

/-- Witness for the amended C3: a one-send trace terminated by `done`. -/
theorem streaming_invariant_amended_witness :
    noFlagged ([] : List StreamingMessage) ∧
    (∀ p ∈ [("hi".toList, Transport.netFail)],
      hasTerminal (sendMessageEvents p.2) = true) ∧
    ∀ msgs ∈ tracePoints ⟨[], false⟩ [("hi".toList, Transport.netFail)],
      streamingInvariant msgs := by
  refine ⟨by decide, by decide, ?_⟩
  exact streaming_invariant_amended ⟨[], false⟩ [("hi".toList, Transport.netFail)]
    (by decide) (by decide)

/-- The exchange of C4's counterexample: a token `"Hi"` already streamed,
then a server `error` event with detail `"boom"`. -/
def errorAfterTokenExchange : WindowState :=
  handleSendMessage ⟨[], false⟩ "hi".toList
    (Transport.ok
      [utf8Encode ("event: token\ndata: \x7b\"content\":\"Hi\"\x7d\n\n" ++
        "event: error\ndata: \x7b\"detail\":\"boom\"\x7d\n\n").toList]
      none)

/-- C4 (counterexample): after a `token` event carrying `"Hi"` and then an
`error` event with detail `"boom"`, the placeholder's content is exactly
`"Error: boom"` — the accumulated partial text `"Hi"` no longer occurs in
the content, so it is not preserved there. -/
theorem error_preserves_text_counterexample :
    (errorAfterTokenExchange.messages.getLast?).map (fun m => m.content)
      = some "Error: boom".toList
    ∧ ¬ ("Hi".toList <:+: "Error: boom".toList) := by
  refine ⟨by decide, by decide⟩

/-- C4 (amended): when an `error` event terminates an exchange after token
fragments were appended, the placeholder's content is REPLACED by the
formatted string `Error: <detail>`; the partial text accumulated so far is
discarded from the content (the step-6 error branch substitutes, it does
not append). -/
theorem error_replaces_text_amended (st : ExchangeState)
    (msgs0 : List StreamingMessage) (m : StreamingMessage)
    (fs : List (List Char)) (d : List Char)
    (hm : st.messages = msgs0 ++ [m]) (hr : m.role = Role.ai) :
    (((fs.map SemEvent.token) ++ [SemEvent.error d]).foldl applyEvent st).messages
      = msgs0 ++
        [{ m with content := "Error: ".toList ++ d, isStreaming := some false }] := by
  rw [List.foldl_append]
  rw [foldl_tokens fs st msgs0 m hm hr]
  simp only [List.foldl_cons, List.foldl_nil]
  rw [show (applyEvent
      ⟨msgs0 ++ [{ m with content := m.content ++ fs.flatten }], st.toolCalls⟩
      (SemEvent.error d)).messages
    = updateLastIfAi
        (fun x => { x with content := "Error: ".toList ++ d, isStreaming := some false })
        (msgs0 ++ [{ m with content := m.content ++ fs.flatten }]) from rfl]
  rw [updateLastIfAi_concat _ _ _ (by exact hr)]

/-- Witness for the amended C4 at a concrete input. -/
theorem error_replaces_text_amended_witness :
    ((⟨[aiPlaceholder], []⟩ : ExchangeState).messages = [] ++ [aiPlaceholder]) ∧
    ((([["Hi".toList]].flatten.map SemEvent.token) ++
        [SemEvent.error "boom".toList]).foldl applyEvent
        ⟨[aiPlaceholder], []⟩).messages
      = [] ++ [{ aiPlaceholder with
          content := "Error: ".toList ++ "boom".toList,
          isStreaming := some false }] := by
  refine ⟨rfl, ?_⟩
  exact error_replaces_text_amended ⟨[aiPlaceholder], []⟩ [] aiPlaceholder
    [["Hi".toList]].flatten "boom".toList rfl rfl

/-- C6: for any sequence of `token` events with fragments `fs` delivered
during one exchange — over any byte chunking `cs` of the wire text — the
placeholder assistant message's final text is exactly the concatenation of
the fragments in arrival order. -/
theorem token_concat (st : WindowState) (content text : List Char)
    (cs : List (List Nat)) (fs : List (List Char))
    (hc : ¬ jsTrim content = []) (hs : st.isStreaming = false)
    (hcs : cs.flatten = utf8Encode text)
    (hev : decodePairs (textPairs text) = fs.map SemEvent.token) :
    (handleSendMessage st content (Transport.ok cs none)).messages
      = st.messages ++ [humanMsg content]
        ++ [{ aiPlaceholder with content := fs.flatten }] := by
  unfold handleSendMessage
  rw [if_neg (guard_false st content hc hs)]
  have hevs : sendMessageEvents (Transport.ok cs none) = fs.map SemEvent.token := by
    show decodePairs (sessionPairs cs) = fs.map SemEvent.token
    rw [sessionPairs_chunking cs, hcs, sessionPairs_encode text, hev]
  show ((sendMessageEvents (Transport.ok cs none)).foldl applyEvent
    ⟨st.messages ++ [humanMsg content] ++ [aiPlaceholder], []⟩).messages = _
  rw [hevs, foldl_tokens fs _ (st.messages ++ [humanMsg content]) aiPlaceholder
    rfl rfl]
  rfl

/-- Witness for C6: two token fragments, the second beginning with a
multi-byte character, delivered one byte at a time. -/
theorem token_concat_witness :
    (((utf8Encode ("event: token\ndata: \x7b\"content\":\"H\"\x7d\n\n" ++
        "event: token\ndata: \x7b\"content\":\"éllo\"\x7d\n\n").toList).map
        (fun b => [b])).flatten
      = utf8Encode ("event: token\ndata: \x7b\"content\":\"H\"\x7d\n\n" ++
        "event: token\ndata: \x7b\"content\":\"éllo\"\x7d\n\n").toList)
    ∧ (handleSendMessage ⟨[], false⟩ "hi".toList
        (Transport.ok ((utf8Encode ("event: token\ndata: \x7b\"content\":\"H\"\x7d\n\n" ++
          "event: token\ndata: \x7b\"content\":\"éllo\"\x7d\n\n").toList).map
          (fun b => [b])) none)).messages
      = [] ++ [humanMsg "hi".toList]
        ++ [{ aiPlaceholder with content := ["H".toList, "éllo".toList].flatten }] := by
  refine ⟨by decide, ?_⟩
  exact token_concat ⟨[], false⟩ "hi".toList
    ("event: token\ndata: \x7b\"content\":\"H\"\x7d\n\n" ++
      "event: token\ndata: \x7b\"content\":\"éllo\"\x7d\n\n").toList
    ((utf8Encode ("event: token\ndata: \x7b\"content\":\"H\"\x7d\n\n" ++
      "event: token\ndata: \x7b\"content\":\"éllo\"\x7d\n\n").toList).map
      (fun b => [b]))
    ["H".toList, "éllo".toList]
    (by decide) rfl (by decide) (by rfl)

/-- C2: for every wire text and every way of slicing its UTF-8 bytes into
chunks (cuts inside a multi-byte character included), the parser dispatches
exactly the same ordered list of (eventName, eventData) pairs as the
unchunked delivery — namely the pairs of the text itself. -/
theorem sse_chunking_invariance (text : List Char) (cs : List (List Nat))
    (h : cs.flatten = utf8Encode text) :
    sessionPairs cs = sessionPairs [utf8Encode text]
    ∧ sessionPairs cs = textPairs text := by
  have h1 : sessionPairs cs = sessionPairs [cs.flatten] := sessionPairs_chunking cs
  rw [h] at h1
  exact ⟨h1, h1.trans (sessionPairs_encode text)⟩

/-- Witness for C2: a stream with a multi-byte character delivered one byte
at a time. -/
theorem sse_chunking_invariance_witness :
    ((utf8Encode "event: token\ndata: héllo\n\n".toList).map (fun b => [b])).flatten
      = utf8Encode "event: token\ndata: héllo\n\n".toList
    ∧ sessionPairs ((utf8Encode "event: token\ndata: héllo\n\n".toList).map
        (fun b => [b]))
      = sessionPairs [utf8Encode "event: token\ndata: héllo\n\n".toList] := by
  refine ⟨by decide, ?_⟩
  exact (sse_chunking_invariance "event: token\ndata: héllo\n\n".toList
    ((utf8Encode "event: token\ndata: héllo\n\n".toList).map (fun b => [b]))
    (by decide)).1

theorem attachResult_skip (n r : List Char) (pre rest : List ToolCallInfo)
    (hpre : ∀ u ∈ pre, ¬ (u.name = n ∧ resultFalsy u.result = true)) :
    attachResult n r (pre ++ rest) = pre ++ attachResult n r rest := by
  induction pre with
  | nil => simp
  | cons u us ih =>
      have hu := hpre u (List.mem_cons_self u us)
      simp only [List.cons_append, attachResult, if_neg hu, List.append_eq]
      rw [ih (fun v hv => hpre v (List.mem_cons_of_mem u hv))]

/-- C5: a `tool_result` for name `n` attaches to the earliest invocation
named `n` whose result is still unresolved, even when several invocations
of `n` are pending: every earlier entry is left alone and every later
pending entry stays pending. -/
theorem toolResult_first_unresolved (pre post : List ToolCallInfo)
    (t : ToolCallInfo) (n r : List Char)
    (hpre : ∀ u ∈ pre, ¬ (u.name = n ∧ resultFalsy u.result = true))
    (hn : t.name = n) (hf : resultFalsy t.result = true) :
    attachResult n r (pre ++ t :: post)
      = pre ++ { t with result := some r } :: post
    ∧ ∀ (st : ExchangeState),
        (applyEvent st (SemEvent.toolResult n r)).toolCalls
          = attachResult n r st.toolCalls := by
  constructor
  · rw [attachResult_skip n r pre _ hpre]
    simp only [attachResult, if_pos (And.intro hn hf)]
  · intro st
    rfl

/-- Witness for C5: two pending invocations of `"s"` (after one already
resolved and one differently named): the result lands on the earliest
pending `"s"`, the later one stays pending. -/
theorem toolResult_first_unresolved_witness :
    (∀ u ∈ [⟨"other".toList, JVal.null, none⟩,
        ⟨"s".toList, JVal.null, some "done".toList⟩],
      ¬ (ToolCallInfo.name u = "s".toList ∧ resultFalsy u.result = true))
    ∧ attachResult "s".toList "3 hits".toList
        ([⟨"other".toList, JVal.null, none⟩,
          ⟨"s".toList, JVal.null, some "done".toList⟩] ++
          ⟨"s".toList, JVal.null, none⟩ :: [⟨"s".toList, JVal.null, none⟩])
      = [⟨"other".toList, JVal.null, none⟩,
          ⟨"s".toList, JVal.null, some "done".toList⟩] ++
        ⟨"s".toList, JVal.null, some "3 hits".toList⟩ ::
          [⟨"s".toList, JVal.null, none⟩] := by
  constructor
  · intro u hu
    rcases List.mem_cons.mp hu with h | h
    · subst h
      intro hand
      exact absurd hand.1 (by decide)
    · simp only [List.mem_singleton] at h
      subst h
      intro hand
      exact absurd hand.2 (by decide)
  · exact (toolResult_first_unresolved
      [⟨"other".toList, JVal.null, none⟩, ⟨"s".toList, JVal.null, some "done".toList⟩]
      [⟨"s".toList, JVal.null, none⟩] ⟨"s".toList, JVal.null, none⟩
      "s".toList "3 hits".toList
      (by
        intro u hu
        rcases List.mem_cons.mp hu with h | h
        · subst h
          intro hand
          exact absurd hand.1 (by decide)
        · simp only [List.mem_singleton] at h
          subst h
          intro hand
          exact absurd hand.2 (by decide))
      rfl rfl).1

/-- C10: an invocation whose attached result is the empty string is still
treated as unresolved: a later `tool_result` for the same name overwrites
the empty result on the same earliest invocation, and the next pending
invocation of that name stays untouched. -/
theorem toolResult_empty_overwrite (n : List Char) (a1 a2 : JVal) (r : List Char) :
    attachResult n r (attachResult n [] [⟨n, a1, none⟩, ⟨n, a2, none⟩])
      = [⟨n, a1, some r⟩, ⟨n, a2, none⟩] := by
  simp [attachResult, resultFalsy]

theorem isPrefixOf_append_self (pre rest : List Char) :
    pre.isPrefixOf (pre ++ rest) = true := by
  induction pre with
  | nil => simp [List.isPrefixOf]
  | cons c cs ih => simp [List.isPrefixOf, ih]

/-- C7: a `data:` line whose remainder trims to nothing sets `eventData` to
the empty string and emits no event; and an event terminator reached with
empty `eventData` emits nothing either — so such a line never causes an
event to be dispatched, wherever it occurs. -/
theorem emptyData_keepalive (s s' : EvState) (raw rest raw' : List Char)
    (h1 : stripCR raw = "data:".toList ++ rest) (h2 : jsTrim rest = [])
    (h3 : stripCR raw' = []) (h4 : s'.2 = []) :
    handleLine s raw = ((s.1, []), []) ∧ handleLine s' raw' = (([], []), []) := by
  constructor
  · unfold handleLine
    rw [h1]
    have hne : ¬ ("data:".toList ++ rest = ([] : List Char)) := by simp
    rw [if_neg hne]
    have hev : "event:".toList.isPrefixOf ("data:".toList ++ rest) = false := by
      simp [List.isPrefixOf]
    have hda : "data:".toList.isPrefixOf ("data:".toList ++ rest) = true :=
      isPrefixOf_append_self _ _
    rw [hev]
    simp only [Bool.false_eq_true, if_false]
    rw [hda]
    simp only [if_true]
    have hdrop : ("data:".toList ++ rest).drop 5 = rest := by simp
    rw [hdrop, h2]
  · unfold handleLine
    rw [h3, if_pos rfl, h4]
    simp

/-- Witness for C7: a whitespace-only `data:` line (with a CR terminator)
and a bare CR line as terminator, in a state with empty `eventData`. -/
theorem emptyData_keepalive_witness :
    stripCR "data:  \r".toList = "data:".toList ++ "  ".toList
    ∧ jsTrim "  ".toList = []
    ∧ stripCR "\r".toList = []
    ∧ handleLine ("a".toList, "b".toList) "data:  \r".toList
        = (("a".toList, []), [])
    ∧ handleLine ("x".toList, []) "\r".toList = (([], []), []) := by
  refine ⟨by decide, by decide, by decide, ?_, ?_⟩
  · exact (emptyData_keepalive ("a".toList, "b".toList) ("x".toList, [])
      "data:  \r".toList "  ".toList "\r".toList
      (by decide) (by decide) (by decide) rfl).1
  · exact (emptyData_keepalive ("a".toList, "b".toList) ("x".toList, [])
      "data:  \r".toList "  ".toList "\r".toList
      (by decide) (by decide) (by decide) rfl).2

/-- C8: for every controller state — capturing ones included — a provider
`end` event triggers a restart exactly when the session reference and its
`onend` handler are still attached, and never changes the capturing flag;
so an `end` during a live capture (the configuration `startRecording`
establishes from a non-recording state) restarts the session and the
controller remains capturing, while `confirm`, `cancel` and teardown all
detach the session reference before stopping, after which a late `end`
can never leave the session running. -/
theorem providerEnd_restart_iff (s : VoiceState) :
    ((providerEnd s).sessionRunning = true
      ↔ (s.onendAttached = true ∧ s.refAttached = true))
    ∧ (providerEnd s).isRecording = s.isRecording
    ∧ (s.isRecording = true → s.refAttached = true → s.onendAttached = true →
        (providerEnd s).sessionRunning = true ∧ (providerEnd s).isRecording = true)
    ∧ (s.isRecording = false →
        (startRecording s).refAttached = true
        ∧ (startRecording s).onendAttached = true
        ∧ (startRecording s).isRecording = true)
    ∧ (confirmRecording s).refAttached = false
    ∧ (cancelRecording s).refAttached = false
    ∧ (unmountCleanup s).refAttached = false
    ∧ (providerEnd (confirmRecording s)).sessionRunning = false
    ∧ (providerEnd (cancelRecording s)).sessionRunning = false
    ∧ (providerEnd (unmountCleanup s)).sessionRunning = false := by
  obtain ⟨inp, rec, itm, fin, pre, ra, oa, sr⟩ := s
  cases rec <;> cases ra <;> cases oa <;> cases sr <;>
    simp [providerEnd, startRecording, confirmRecording, cancelRecording,
      stopRecording, unmountCleanup, supportsVoice]

/-- Witness for C8 at a concrete capturing state with a live session (and,
for the start conjunct, at a concrete idle state). -/
theorem providerEnd_restart_iff_witness :
    ((⟨"abc".toList, true, [], [], [], true, true, true⟩ : VoiceState).isRecording
      = true)
    ∧ (providerEnd
        ⟨"abc".toList, true, [], [], [], true, true, true⟩).sessionRunning = true
    ∧ (providerEnd
        ⟨"abc".toList, true, [], [], [], true, true, true⟩).isRecording = true
    ∧ (providerEnd (confirmRecording
        ⟨"abc".toList, true, [], [], [], true, true, true⟩)).sessionRunning = false
    ∧ (startRecording
        ⟨[], false, [], [], [], false, false, false⟩).isRecording = true := by
  refine ⟨rfl, ?_, ?_, ?_, ?_⟩
  · exact ((providerEnd_restart_iff
      ⟨"abc".toList, true, [], [], [], true, true, true⟩).2.2.1 rfl rfl rfl).1
  · exact ((providerEnd_restart_iff
      ⟨"abc".toList, true, [], [], [], true, true, true⟩).2.2.1 rfl rfl rfl).2
  · exact (providerEnd_restart_iff
      ⟨"abc".toList, true, [], [], [], true, true, true⟩).2.2.2.2.2.2.2.1
  · exact ((providerEnd_restart_iff
      ⟨[], false, [], [], [], false, false, false⟩).2.2.2.1 rfl).2.2

theorem applyProvList_preRecording (es : List ProvEvent) (st : VoiceState) :
    (applyProvList st es).preRecording = st.preRecording := by
  induction es generalizing st with
  | nil => rfl
  | cons e es ih =>
      rw [show applyProvList st (e :: es) = applyProvList (applyProv st e) es
        from rfl]
      rw [ih]
      cases e with
      | result rs => rfl
      | ended =>
          show (providerEnd st).preRecording = st.preRecording
          simp only [providerEnd]
          by_cases h1 : st.onendAttached = true <;>
            by_cases h2 : st.refAttached = true <;> simp [h1, h2]
      | errored e => rfl

theorem stopRecording_input (s : VoiceState) :
    (stopRecording s).input = s.input := by
  simp only [stopRecording]
  by_cases h : s.refAttached = true <;> simp [h]

/-- C9: starting a capture from a non-capturing state, letting the provider
deliver any sequence of events, and cancelling restores the input buffer to
exactly its pre-capture value — a start/cancel round trip is the identity
on the input buffer, whatever was captured. -/
theorem cancel_restores_input (s : VoiceState) (es : List ProvEvent)
    (hrec : s.isRecording = false) :
    (cancelRecording (applyProvList (startRecording s) es)).input = s.input := by
  have hstart : (startRecording s).preRecording = s.input := by
    simp [startRecording, supportsVoice, hrec]
  have hpre : (applyProvList (startRecording s) es).preRecording = s.input := by
    rw [applyProvList_preRecording, hstart]
  unfold cancelRecording
  rw [stopRecording_input]
  exact hpre

/-- Witness for C9: empty pre-capture input, one result and one `end`
event, then cancel. -/
theorem cancel_restores_input_witness :
    ((⟨[], false, [], [], [], false, false, false⟩ : VoiceState).isRecording = false)
    ∧ (cancelRecording (applyProvList
        (startRecording ⟨[], false, [], [], [], false, false, false⟩)
        [ProvEvent.result [(true, "hello".toList)], ProvEvent.ended])).input
      = (⟨[], false, [], [], [], false, false, false⟩ : VoiceState).input := by
  refine ⟨rfl, ?_⟩
  exact cancel_restores_input ⟨[], false, [], [], [], false, false, false⟩
    [ProvEvent.result [(true, "hello".toList)], ProvEvent.ended] rfl

end GoalsReact
